import Mathlib

/-!
Shallow embedding of the comest scenario execution engine (src/comest.ts).

The embedding follows the TypeScript source: YAML-derived dynamic values are
modelled by `JSVal` (strict equality `===` is `jsEq`), fallible code returns
`Except`, the filesystem is explicit state (`FS`), and the subprocess
executor and the tmp-file name generator are oracle parameters.
-/

set_option maxRecDepth 4000

/-- A JavaScript runtime value as it appears in the verifier: `undefined`,
`null`, a string or a number. -/
inductive JSVal where
  | undef
  | null
  | str (s : String)
  | num (n : Int)
deriving DecidableEq, Repr

/-- JavaScript strict equality `===` restricted to the values above. -/
def jsEq : JSVal → JSVal → Bool
  | JSVal.undef, JSVal.undef => true
  | JSVal.null, JSVal.null => true
  | JSVal.str a, JSVal.str b => a == b
  | JSVal.num a, JSVal.num b => a == b
  | _, _ => false

/-- The character class removed by JavaScript `String.prototype.trim`. -/
def isJsWhitespace (c : Char) : Bool :=
  c = ' ' || c = '\t' || c = '\n' || c = '\r' || c = '\x0b' || c = '\x0c' ||
  c.val = 0xa0 || c.val = 0x1680 || (0x2000 ≤ c.val && c.val ≤ 0x200a) ||
  c.val = 0x2028 || c.val = 0x2029 || c.val = 0x202f || c.val = 0x205f ||
  c.val = 0x3000 || c.val = 0xfeff

/-- JavaScript `String.prototype.trim`: drop leading and trailing whitespace. -/
def jsTrim (s : String) : String :=
  String.mk (((s.data.dropWhile isJsWhitespace).reverse.dropWhile isJsWhitespace).reverse)

/-- Line terminators, which `.` in a JavaScript regex never matches. -/
def isLineTerminator (c : Char) : Bool :=
  c = '\n' || c = '\r' || c.val = 0x2028 || c.val = 0x2029

/-- `interface Asset` / `AssetFile`: `file` is `some path` once `createAssets`
has materialized a temporary file for a file-kind asset. -/
structure Asset where
  type : String
  name : String
  content : Option String := none
  file : Option String := none
deriving DecidableEq, Repr

/-- One step of a scenario: `{command, expect}`. `expect` is the ordered list
of entries of the YAML mapping, as `Object.entries` would produce them. -/
structure Step where
  command : Option String := none
  expect : Option (List (String × JSVal)) := none
deriving DecidableEq, Repr

/-- A raw scenario document as produced by the YAML front end, before
`normalizeConfig`: every field except `path` may be absent. -/
structure RawConfig where
  name : Option String := none
  path : String
  command : Option String := none
  expect : Option (List (String × JSVal)) := none
  assets : Option (List Asset) := none
  steps : Option (List Step) := none
deriving DecidableEq, Repr

/-- `interface ConfigSteps`: the canonical scenario shape after
`normalizeConfig` (assets defaulted, legacy command lifted into `steps`). -/
structure ConfigSteps where
  name : Option String
  path : String
  assets : List Asset
  steps : List Step
deriving DecidableEq, Repr

/-- `interface SuiteResult`: the pass/fail verdict for one expected field. -/
structure SuiteResult where
  type : String
  pass : Bool
  expected : JSVal
  received : JSVal
deriving DecidableEq, Repr

/-- The record built for each step by `comest`: `{result, command}`. -/
structure StepResult where
  result : List SuiteResult
  command : String
deriving DecidableEq, Repr

/-- The record built for each scenario by `comest`: `{path, name, result}`. -/
structure ScenarioRecord where
  path : String
  name : Option String
  result : List StepResult
deriving DecidableEq, Repr

/-- The captured outcome of `spawnSync`: each field is a JS value so that
missing (`undefined`) and `null` captures can be represented. -/
structure ProcResult where
  status : JSVal
  stdout : JSVal
  stderr : JSVal
deriving DecidableEq, Repr

/-- A value thrown inside the scenario loop: either an explicitly thrown
string or a TypeError raised by the runtime. -/
inductive RunError where
  | thrown (msg : String)
  | typeError (msg : String)
deriving DecidableEq, Repr

deriving instance DecidableEq for Except

/-- The value thrown by `normalizeConfig`; the JS message embeds the
offending config via `JSON.stringify`, modelled by carrying the config. -/
inductive NormalizeError where
  | configNotValid (config : Option RawConfig)
deriving DecidableEq, Repr

/-- `normalizeConfig`: accept any document whose `name` is present, lifting a
legacy top-level `command`/`expect` pair into a one-element step list and
defaulting `assets`; otherwise throw. -/
def normalizeConfig (config : Option RawConfig) : Except NormalizeError ConfigSteps :=
  match config with
  | some c =>
    if c.name.isSome then
      Except.ok ⟨c.name, c.path, c.assets.getD [], c.steps.getD [⟨c.command, c.expect⟩]⟩
    else
      Except.error (NormalizeError.configNotValid config)
  | none => Except.error (NormalizeError.configNotValid config)

/-- The filesystem, as a map from paths to file contents. -/
abbrev FS := String → Option String

/-- `writeFileSync`: create or overwrite a file. -/
def writeFileSync (fs : FS) (path content : String) : FS :=
  fun q => if q = path then some content else fs q

/-- Deleting a file (the tmp library's `removeCallback`). -/
def unlink (fs : FS) (path : String) : FS :=
  fun q => if q = path then none else fs q

/-- The extension extracted by the regex `(?:\.([^.]+))?$` applied to an
asset name: the non-empty run of non-dot characters after the last dot,
when the name contains a dot and does not end with one. -/
def lastExt (name : String) : Option String :=
  let cs := name.data
  let tail := cs.reverse.takeWhile (fun c => c ≠ '.')
  if tail.length = cs.length then none
  else if tail.isEmpty then none
  else some (String.mk tail.reverse)

/-- `createAssets`: materialize each file-kind asset into a fresh temporary
file (name provided by the `tmp` oracle from a counter and the extension
suffix), writing `content ?? ''`; string-kind assets pass through. -/
def createAssets (tmp : Nat → String → String) : List Asset → Nat → FS → List Asset × Nat × FS
  | [], n, fs => ([], n, fs)
  | asset :: rest, n, fs =>
    if asset.type == "file" then
      let sfx := match lastExt asset.name with
        | some e => "." ++ e
        | none => ""
      let path := tmp n sfx
      let fs1 := writeFileSync fs path (asset.content.getD "")
      let r := createAssets tmp rest (n + 1) fs1
      (⟨asset.type, asset.name, asset.content, some path⟩ :: r.1, r.2.1, r.2.2)
    else
      let r := createAssets tmp rest n fs
      (asset :: r.1, r.2.1, r.2.2)

/-- `removeAssets`: delete the temporary file of every asset that is
file-kind and was materialized (`asset.type === 'file' && asset.file`). -/
def removeAssets (fs : FS) (assets : List Asset) : FS :=
  assets.foldl
    (fun fs asset =>
      if asset.type == "file" then
        match asset.file with
        | some p => unlink fs p
        | none => fs
      else fs)
    fs

/-- The stringification `${asset.content}` performed for string-kind assets:
an absent content interpolates as the text `undefined`. -/
def contentStr (asset : Asset) : String :=
  match asset.content with
  | some c => c
  | none => "undefined"

/-- Scan for the `}` closing a placeholder: the lazy group `(.*?)` takes the
nearest closing brace, and `.` cannot cross a line terminator. Returns the
identifier characters and the remainder after the brace. -/
def findClose : List Char → Option (List Char × List Char)
  | [] => none
  | c :: rest =>
    if c = '}' then some ([], rest)
    else if isLineTerminator c then none
    else
      match findClose rest with
      | some (ident, r) => some (c :: ident, r)
      | none => none

/-- The replacement loop of `command.replace(/\{(.*?)\}/g, cb)` with the
callback of `generateCommand` inlined. The `Nat` argument is fuel, always
instantiated with the length of the character list (see `interpGo_fuel`);
`command` is the whole template, used only in the error message. Note that
the thrown message interpolates the placeholder `name` bound by the
callback in both positions, exactly as the source does. -/
def interpGo (command : String) (assets : List Asset) : Nat → List Char → Except RunError (List Char)
  | _, [] => Except.ok []
  | 0, l => Except.ok l
  | n + 1, c :: rest =>
    if c = '{' then
      match findClose rest with
      | some (ident, rest2) =>
        let name := String.mk ident
        match assets.find? (fun asset => asset.name == name) with
        | some asset =>
          if asset.type == "file" then
            match asset.file with
            | some file => (interpGo command assets n rest2).map (fun t => file.data ++ t)
            | none => Except.error (RunError.typeError "Cannot read properties of undefined (reading 'name')")
          else if asset.type == "string" then
            (interpGo command assets n rest2).map (fun t => '"' :: (contentStr asset).data ++ '"' :: t)
          else
            (interpGo command assets n rest2).map (fun t => '{' :: ident ++ '}' :: t)
        | none =>
          Except.error (RunError.thrown
            ("Cannot find asset \"" ++ name ++ "\" from \"" ++ command ++ "\" in file " ++ name))
      | none => (interpGo command assets n rest).map (fun t => '{' :: t)
    else
      (interpGo command assets n rest).map (fun t => c :: t)

/-- Interpolation over a character list with adequate fuel. -/
def interpolateChars (command : String) (assets : List Asset) (l : List Char) : Except RunError (List Char) :=
  interpGo command assets l.length l

/-- `generateCommand(command, assets, name)`: resolve every `{identifier}`
placeholder of the template. The third parameter is the context label; it is
dead, because the replace callback shadows it. -/
def generateCommand (command : String) (assets : List Asset) (name : String) : Except RunError String :=
  (interpolateChars command assets command.data).map String.mk

/-- Property access `result[key]` on the captured `spawnSync` outcome. -/
def getField (result : ProcResult) (key : String) : JSVal :=
  if key == "status" then result.status
  else if key == "stdout" then result.stdout
  else if key == "stderr" then result.stderr
  else JSVal.undef

/-- `verifyExpectation(result, expectations)`: one `SuiteResult` per declared
entry; a string capture is trimmed before the strict comparison, and the
reported `received` value is `input ?? ''`. -/
def verifyExpectation (result : ProcResult) (expectations : Option (List (String × JSVal))) : List SuiteResult :=
  match expectations with
  | none => []
  | some entries =>
    entries.map (fun kv =>
      let input := getField result kv.1
      let input := match input with
        | JSVal.str s => JSVal.str (jsTrim s)
        | v => v
      ⟨kv.1, jsEq input kv.2, kv.2,
        match input with
        | JSVal.undef => JSVal.str ""
        | JSVal.null => JSVal.str ""
        | v => v⟩)

/-- One iteration of the step loop in `comest`: interpolate, execute through
the `exec` oracle, verify, and record `{result, command: step.command}`. -/
def runStep (exec : String → ProcResult) (assets : List Asset) (ctx : String) (step : Step) : Except RunError StepResult :=
  match step.command with
  | none => Except.error (RunError.typeError "Cannot read properties of undefined (reading 'replace')")
  | some cmd =>
    match generateCommand cmd assets ctx with
    | Except.error e => Except.error e
    | Except.ok command =>
      let commandResult := exec command
      let result := verifyExpectation commandResult step.expect
      Except.ok ⟨result, cmd⟩

/-- `config.steps.map(...)` with a thrown error propagating out of the map. -/
def runSteps (exec : String → ProcResult) (assets : List Asset) (ctx : String) : List Step → Except RunError (List StepResult)
  | [] => Except.ok []
  | s :: rest =>
    match runStep exec assets ctx s with
    | Except.error e => Except.error e
    | Except.ok r =>
      match runSteps exec assets ctx rest with
      | Except.error e => Except.error e
      | Except.ok rs => Except.ok (r :: rs)

/-- If `pat` is a prefix of the list, strip it and return the remainder. -/
def stripHead : List Char → List Char → Option (List Char)
  | [], l => some l
  | _ :: _, [] => none
  | p :: ps, c :: cs => if c = p then stripHead ps cs else none

/-- Remove the first occurrence of `pat` from the character list. -/
def removeFirstAux (pat : List Char) : List Char → List Char
  | [] => []
  | c :: cs =>
    match stripHead pat (c :: cs) with
    | some rest => rest
    | none => c :: removeFirstAux pat cs

/-- JavaScript `String.prototype.replace` with a plain-string pattern and an
empty replacement: remove the first occurrence only. -/
def replaceFirst (s pat : String) : String :=
  String.mk (removeFirstAux pat.data s.data)

/-- The body of the per-config arrow function in `comest`: materialize
assets, run the steps, then `removeAssets`. There is no try/finally: a
thrown `RunError` propagates and `removeAssets` is not reached. -/
def runConfig (exec : String → ProcResult) (tmp : Nat → String → String) (cwd : String)
    (config : ConfigSteps) (n : Nat) (fs : FS) : Except RunError ScenarioRecord × Nat × FS :=
  let created := createAssets tmp config.assets n fs
  let assets := created.1
  let n1 := created.2.1
  let fs1 := created.2.2
  match runSteps exec assets (replaceFirst config.path cwd) config.steps with
  | Except.error e => (Except.error e, n1, fs1)
  | Except.ok suiteResult =>
    (Except.ok ⟨config.path, config.name, suiteResult⟩, n1, removeAssets fs1 assets)

/-- The `.map` over all configs in `comest`, threading the tmp counter and
the filesystem; a thrown error aborts the remaining scenarios. -/
def runConfigs (exec : String → ProcResult) (tmp : Nat → String → String) (cwd : String) :
    List ConfigSteps → Nat → FS → Except RunError (List ScenarioRecord) × Nat × FS
  | [], n, fs => (Except.ok [], n, fs)
  | c :: rest, n, fs =>
    match runConfig exec tmp cwd c n fs with
    | (Except.error e, n1, fs1) => (Except.error e, n1, fs1)
    | (Except.ok r, n1, fs1) =>
      match runConfigs exec tmp cwd rest n1 fs1 with
      | (Except.error e, n2, fs2) => (Except.error e, n2, fs2)
      | (Except.ok rs, n2, fs2) => (Except.ok (r :: rs), n2, fs2)

/-- The `suitesCount` reduce of `formatResults`: total number of field
results across every step of every scenario. -/
def suitesCount (results : List ScenarioRecord) : Nat :=
  results.foldl (fun a v => a + v.result.foldl (fun a v => a + v.result.length) 0) 0

/-- The `passingTests` reduce of `formatResults`: number of passing field
results across every step of every scenario. -/
def passingTests (results : List ScenarioRecord) : Nat :=
  results.foldl
    (fun a v => a + v.result.foldl
      (fun a v => a + v.result.foldl (fun a v => a + (if v.pass then 1 else 0)) 0) 0)
    0

/-- `process.exit(suitesCount === passingTests ? 0 : 1)`. -/
def comestExitCode (results : List ScenarioRecord) : Nat :=
  if suitesCount results == passingTests results then 0 else 1

/-- The `comest` entry point over already-parsed documents: normalize every
document, run every scenario, and report the exit code; any thrown value is
caught by the surrounding try/catch and exits with code 1. -/
def comestRun (exec : String → ProcResult) (tmp : Nat → String → String) (cwd : String)
    (raws : List (Option RawConfig)) (fs : FS) : Nat × FS :=
  match raws.mapM normalizeConfig with
  | Except.error _ => (1, fs)
  | Except.ok configs =>
    match runConfigs exec tmp cwd configs 0 fs with
    | (Except.error _, _, fs2) => (1, fs2)
    | (Except.ok results, _, fs2) => (comestExitCode results, fs2)

/-- A constant executor oracle: every command exits 0 with empty output. -/
def exec0 : String → ProcResult := fun _ => ⟨JSVal.num 0, JSVal.str "", JSVal.str ""⟩

/-- A deterministic tmp-name oracle: counter plus extension suffix. -/
def tmp0 : Nat → String → String := fun n sfx => "/tmp/t" ++ toString n ++ sfx

/-- The empty filesystem. -/
def fs0 : FS := fun _ => none

/-- A scenario whose file asset materializes and whose single step then hits
an interpolation error on an undeclared placeholder. -/
def cfgAssetLeak : ConfigSteps :=
  ⟨some "leak", "leak.test.yml", [⟨"file", "f.txt", some "data", none⟩],
    [⟨some "cat {missing}", none⟩]⟩

/-- A scenario with a file asset whose single step interpolates fine but
fails its expectation (`exec0` exits 0, the step expects 1). -/
def cfgCleanupOk : ConfigSteps :=
  ⟨some "ok", "ok.test.yml", [⟨"file", "f", some "c", none⟩],
    [⟨some "cat {f}", some [("status", JSVal.num 1)]⟩]⟩

/-- A scenario with a string asset and a template placeholder, used to
inspect the `command` recorded in its StepResult. -/
def cfgTemplate7 : ConfigSteps :=
  ⟨some "n", "p", [⟨"string", "s", some "v", none⟩], [⟨some "echo {s}", none⟩]⟩

/-- A raw document whose command references an undeclared asset. -/
def rawBad3 : RawConfig :=
  ⟨some "nm", "test/demo.test.yml", some "cat {file1}", none, none, none⟩

/-- Two string assets sharing the name `f`, for first-match resolution. -/
def dupAssets6 : List Asset :=
  [⟨"string", "f", some "first", none⟩, ⟨"string", "f", some "second", none⟩]

/-- Two steps: the first fails its status expectation, the second has none. -/
def steps9 : List Step :=
  [⟨some "a", some [("status", JSVal.num 1)]⟩, ⟨some "b", none⟩]

theorem findClose_sublen : ∀ (l i r : List Char), findClose l = some (i, r) → r.length < l.length := by
  intro l
  induction l with
  | nil => intro i r h; simp [findClose] at h
  | cons c rest ih =>
    intro i r h
    simp only [findClose] at h
    by_cases hc : c = '}'
    · rw [if_pos hc] at h
      simp only [Option.some.injEq, Prod.mk.injEq] at h
      obtain ⟨h1, h2⟩ := h
      subst h2
      simp [List.length_cons]
    · rw [if_neg hc] at h
      by_cases hl : isLineTerminator c = true
      · rw [if_pos hl] at h; exact absurd h (by simp)
      · rw [if_neg hl] at h
        cases hfc : findClose rest with
        | none => rw [hfc] at h; simp at h
        | some q =>
          obtain ⟨i2, r2⟩ := q
          rw [hfc] at h
          simp only [Option.some.injEq, Prod.mk.injEq] at h
          obtain ⟨h1, h2⟩ := h
          subst h2
          have := ih i2 r2 hfc
          simp [List.length_cons]
          omega

theorem interpGo_fuel (command : String) (assets : List Asset) :
    ∀ (n : Nat) (l : List Char) (m : Nat), l.length ≤ n → l.length ≤ m →
      interpGo command assets n l = interpGo command assets m l := by
  intro n
  induction n with
  | zero =>
    intro l m h1 _
    have hl : l = [] := List.eq_nil_of_length_eq_zero (Nat.le_zero.mp h1)
    subst hl
    cases m <;> rfl
  | succ n ih =>
    intro l m h1 h2
    cases l with
    | nil => cases m <;> rfl
    | cons c rest =>
      cases m with
      | zero => simp at h2
      | succ m =>
        simp only [List.length_cons, Nat.add_le_add_iff_right] at h1 h2
        simp only [interpGo]
        by_cases hc : c = '{'
        · rw [if_pos hc, if_pos hc]
          rcases hor : findClose rest with _ | ⟨ident, rest2⟩
          · simp only []
            rw [ih rest m h1 h2]
          · have hlen := findClose_sublen rest ident rest2 hor
            simp only []
            rw [ih rest2 m (by omega) (by omega)]
        · rw [if_neg hc, if_neg hc]
          rw [ih rest m h1 h2]

theorem interpolateChars_nil (cmd : String) (as : List Asset) :
    interpolateChars cmd as [] = Except.ok [] := rfl

theorem interpolateChars_cons_ne (cmd : String) (as : List Asset) (c : Char) (rest : List Char)
    (hc : c ≠ '{') :
    interpolateChars cmd as (c :: rest) = (interpolateChars cmd as rest).map (fun t => c :: t) := by
  unfold interpolateChars
  simp only [List.length_cons, interpGo]
  rw [if_neg hc]

theorem interpolateChars_found (cmd : String) (as : List Asset) (rest ident rest2 : List Char)
    (hfc : findClose rest = some (ident, rest2)) :
    interpolateChars cmd as ('{' :: rest) =
      match as.find? (fun asset => asset.name == String.mk ident) with
      | some asset =>
        if asset.type == "file" then
          match asset.file with
          | some file => (interpolateChars cmd as rest2).map (fun t => file.data ++ t)
          | none => Except.error (RunError.typeError "Cannot read properties of undefined (reading 'name')")
        else if asset.type == "string" then
          (interpolateChars cmd as rest2).map (fun t => '"' :: (contentStr asset).data ++ '"' :: t)
        else
          (interpolateChars cmd as rest2).map (fun t => '{' :: ident ++ '}' :: t)
      | none =>
        Except.error (RunError.thrown
          ("Cannot find asset \"" ++ String.mk ident ++ "\" from \"" ++ cmd ++ "\" in file " ++ String.mk ident)) := by
  have hlen := findClose_sublen rest ident rest2 hfc
  unfold interpolateChars
  simp only [List.length_cons, interpGo]
  rw [if_pos trivial]
  simp only [hfc]
  rw [interpGo_fuel cmd as rest.length rest2 rest2.length (by omega) (le_refl _)]

theorem interpolateChars_noclose (cmd : String) (as : List Asset) (rest : List Char)
    (hfc : findClose rest = none) :
    interpolateChars cmd as ('{' :: rest) = (interpolateChars cmd as rest).map (fun t => '{' :: t) := by
  unfold interpolateChars
  simp only [List.length_cons, interpGo]
  rw [if_pos trivial]
  simp only [hfc]

theorem interp_missing (cmd : String) (as : List Asset) (rest ident rest2 : List Char)
    (hfc : findClose rest = some (ident, rest2))
    (hfind : as.find? (fun asset => asset.name == String.mk ident) = none) :
    interpolateChars cmd as ('{' :: rest) =
      Except.error (RunError.thrown
        ("Cannot find asset \"" ++ String.mk ident ++ "\" from \"" ++ cmd ++ "\" in file " ++ String.mk ident)) := by
  rw [interpolateChars_found cmd as rest ident rest2 hfc]
  simp only [hfind]

theorem interp_found_file (cmd : String) (as : List Asset) (rest ident rest2 : List Char)
    (a : Asset) (p : String)
    (hfc : findClose rest = some (ident, rest2))
    (hfind : as.find? (fun asset => asset.name == String.mk ident) = some a)
    (ht : a.type = "file") (hp : a.file = some p) :
    interpolateChars cmd as ('{' :: rest) =
      (interpolateChars cmd as rest2).map (fun t => p.data ++ t) := by
  rw [interpolateChars_found cmd as rest ident rest2 hfc]
  simp [hfind, ht, hp]

theorem interp_found_string (cmd : String) (as : List Asset) (rest ident rest2 : List Char)
    (a : Asset)
    (hfc : findClose rest = some (ident, rest2))
    (hfind : as.find? (fun asset => asset.name == String.mk ident) = some a)
    (ht : a.type = "string") :
    interpolateChars cmd as ('{' :: rest) =
      (interpolateChars cmd as rest2).map (fun t => '"' :: (contentStr a).data ++ '"' :: t) := by
  rw [interpolateChars_found cmd as rest ident rest2 hfc]
  simp [hfind, ht]

theorem interp_found_other (cmd : String) (as : List Asset) (rest ident rest2 : List Char)
    (a : Asset)
    (hfc : findClose rest = some (ident, rest2))
    (hfind : as.find? (fun asset => asset.name == String.mk ident) = some a)
    (ht1 : a.type ≠ "file") (ht2 : a.type ≠ "string") :
    interpolateChars cmd as ('{' :: rest) =
      (interpolateChars cmd as rest2).map (fun t => '{' :: ident ++ '}' :: t) := by
  rw [interpolateChars_found cmd as rest ident rest2 hfc]
  simp [hfind, ht1, ht2]

theorem interp_pre (cmd : String) (as : List Asset) :
    ∀ (pre rest : List Char), (∀ c ∈ pre, c ≠ '{') →
      interpolateChars cmd as (pre ++ rest) = (interpolateChars cmd as rest).map (fun t => pre ++ t) := by
  intro pre
  induction pre with
  | nil =>
    intro rest _
    cases h : interpolateChars cmd as rest <;> simp [Except.map, h]
  | cons c pre ih =>
    intro rest h
    have hc : c ≠ '{' := h c (by simp)
    rw [List.cons_append, interpolateChars_cons_ne cmd as c (pre ++ rest) hc,
      ih rest (fun x hx => h x (by simp [hx]))]
    cases hr : interpolateChars cmd as rest <;> simp [Except.map, hr]

theorem findClose_append :
    ∀ (id post : List Char), (∀ c ∈ id, c ≠ '}' ∧ isLineTerminator c = false) →
      findClose (id ++ '}' :: post) = some (id, post) := by
  intro id
  induction id with
  | nil => intro post _; simp [findClose]
  | cons c id ih =>
    intro post h
    have hc := h c (by simp)
    simp [findClose, hc.1, hc.2, ih post (fun x hx => h x (by simp [hx]))]

theorem find_first_eq :
    ∀ (assets : List Asset) (nm : String) (i : Nat) (a : Asset),
      assets[i]? = some a → a.name = nm →
      (∀ j, j < i → ∀ b, assets[j]? = some b → b.name ≠ nm) →
      assets.find? (fun x => x.name == nm) = some a := by
  intro assets
  induction assets with
  | nil => intro nm i a hget; simp at hget
  | cons x xs ih =>
    intro nm i a hget hname hfirst
    cases i with
    | zero =>
      simp only [List.getElem?_cons_zero, Option.some.injEq] at hget
      subst hget
      exact List.find?_cons_of_pos _ (by simp [hname])
    | succ i =>
      have hx : x.name ≠ nm := hfirst 0 (Nat.succ_pos i) x (by simp)
      rw [List.find?_cons_of_neg _ (by simp [hx])]
      apply ih nm i a (by simpa using hget) hname
      intro j hj b hb
      exact hfirst (j + 1) (by omega) b (by simpa using hb)

theorem removeAssets_nil (fs : FS) : removeAssets fs [] = fs := rfl

theorem removeAssets_cons (fs : FS) (x : Asset) (rest : List Asset) :
    removeAssets fs (x :: rest) =
      removeAssets
        (if x.type == "file" then
          match x.file with
          | some p => unlink fs p
          | none => fs
        else fs)
        rest := rfl

theorem removeAssets_none :
    ∀ (assets : List Asset) (fs : FS) (p : String), fs p = none → removeAssets fs assets p = none := by
  intro assets
  induction assets with
  | nil => intro fs p h; exact h
  | cons x rest ih =>
    intro fs p h
    rw [removeAssets_cons]
    apply ih
    by_cases ht : (x.type == "file") = true
    · rw [if_pos ht]
      cases hf : x.file with
      | none => exact h
      | some q =>
        show unlink fs q p = none
        unfold unlink
        by_cases hpq : p = q <;> simp [hpq, h]
    · rw [if_neg ht]; exact h

theorem removeAssets_mem :
    ∀ (assets : List Asset) (fs : FS) (a : Asset) (p : String),
      a ∈ assets → a.type = "file" → a.file = some p → removeAssets fs assets p = none := by
  intro assets
  induction assets with
  | nil => intro fs a p h; intro _ _; simp at h
  | cons x rest ih =>
    intro fs a p hmem ht hf
    rw [removeAssets_cons]
    rcases List.mem_cons.mp hmem with rfl | hmem2
    · apply removeAssets_none
      rw [if_pos (by simp [ht]), hf]
      show unlink fs p p = none
      simp [unlink]
    · exact ih _ a p hmem2 ht hf

theorem foldl_add_eq_sum {α : Type} (f : α → Nat) :
    ∀ (l : List α) (a : Nat), List.foldl (fun acc x => acc + f x) a l = a + (l.map f).sum := by
  intro l
  induction l with
  | nil => intro a; simp
  | cons x xs ih =>
    intro a
    simp only [List.foldl_cons, List.map_cons, List.sum_cons, ih]
    omega

theorem suitesCount_eq (results : List ScenarioRecord) :
    suitesCount results =
      (results.map (fun sc => (sc.result.map (fun st => st.result.length)).sum)).sum := by
  unfold suitesCount
  simp [foldl_add_eq_sum]

theorem passingTests_eq (results : List ScenarioRecord) :
    passingTests results =
      (results.map (fun sc =>
        (sc.result.map (fun st =>
          (st.result.map (fun f => if f.pass then 1 else 0)).sum)).sum)).sum := by
  unfold passingTests
  simp [foldl_add_eq_sum]

theorem sum_pass_le (l : List SuiteResult) :
    (l.map (fun f => if f.pass then 1 else 0)).sum ≤ l.length ∧
      ((l.map (fun f => if f.pass then 1 else 0)).sum = l.length ↔ ∀ f ∈ l, f.pass = true) := by
  induction l with
  | nil => simp
  | cons x xs ih =>
    obtain ⟨ih1, ih2⟩ := ih
    constructor
    · simp only [List.map_cons, List.sum_cons, List.length_cons]
      by_cases h : x.pass = true
      · rw [if_pos h]; omega
      · rw [if_neg h]; omega
    · simp only [List.map_cons, List.sum_cons, List.length_cons, List.forall_mem_cons]
      by_cases h : x.pass = true
      · rw [if_pos h, ← ih2]
        constructor
        · intro heq; exact ⟨h, by omega⟩
        · intro hx; omega
      · rw [if_neg h]
        constructor
        · intro heq; exfalso; omega
        · intro hx; exact absurd hx.1 h

theorem sum_map_le_iff {α : Type} (g h : α → Nat) (hle : ∀ x, g x ≤ h x) :
    ∀ (l : List α), (l.map g).sum ≤ (l.map h).sum ∧
      ((l.map g).sum = (l.map h).sum ↔ ∀ x ∈ l, g x = h x) := by
  intro l
  induction l with
  | nil => simp
  | cons x xs ih =>
    obtain ⟨ih1, ih2⟩ := ih
    have hx := hle x
    constructor
    · simp only [List.map_cons, List.sum_cons]
      omega
    · simp only [List.map_cons, List.sum_cons, List.forall_mem_cons]
      rw [← ih2]
      constructor
      · intro heq; constructor <;> omega
      · intro hp; omega

theorem getField_all_undef (k : String) :
    getField ⟨JSVal.undef, JSVal.undef, JSVal.undef⟩ k = JSVal.undef := by
  unfold getField
  (repeat' split) <;> rfl

/-- C1: the run-level exit code computed from `formatResults` counters and
`process.exit(suitesCount === passingTests ? 0 : 1)` is 0 if and only if
every FieldResult of every step of every scenario passes; any failing
FieldResult yields a non-zero exit code. -/
theorem exit_code_iff_all_pass_c1 (results : List ScenarioRecord) :
    comestExitCode results = 0 ↔
      ∀ sc ∈ results, ∀ st ∈ sc.result, ∀ f ∈ st.result, f.pass = true := by
  have key : suitesCount results = passingTests results ↔
      ∀ sc ∈ results, ∀ st ∈ sc.result, ∀ f ∈ st.result, f.pass = true := by
    rw [suitesCount_eq, passingTests_eq, eq_comm]
    have hle1 : ∀ st : StepResult,
        (st.result.map (fun f => if f.pass then 1 else 0)).sum ≤ st.result.length :=
      fun st => (sum_pass_le st.result).1
    have hle2 : ∀ sc : ScenarioRecord,
        (sc.result.map (fun st => (st.result.map (fun f => if f.pass then 1 else 0)).sum)).sum ≤
          (sc.result.map (fun st => st.result.length)).sum :=
      fun sc => (sum_map_le_iff _ _ hle1 sc.result).1
    rw [(sum_map_le_iff _ _ hle2 results).2]
    apply forall₂_congr
    intro sc _
    rw [(sum_map_le_iff _ _ hle1 sc.result).2]
    apply forall₂_congr
    intro st _
    exact (sum_pass_le st.result).2
  rw [← key]
  unfold comestExitCode
  by_cases h : suitesCount results = passingTests results
  · simp [h]
  · have hb : (suitesCount results == passingTests results) = false := by
      simp [h]
    simp [hb, h]

/-- C2: `verifyExpectation` compares `status` numerically as captured, and
compares `stdout`/`stderr` by exact equality after trimming only the
captured value; in particular expecting `foo` against captured `foo\n`
passes while expecting `foo\n` against captured `foo` fails. -/
theorem verify_comparison_c2 :
    (∀ (n e : Int) (so se : JSVal),
      verifyExpectation ⟨JSVal.num n, so, se⟩ (some [("status", JSVal.num e)])
        = [⟨"status", n == e, JSVal.num e, JSVal.num n⟩])
    ∧ (∀ (s e : String) (st se : JSVal),
      verifyExpectation ⟨st, JSVal.str s, se⟩ (some [("stdout", JSVal.str e)])
        = [⟨"stdout", jsTrim s == e, JSVal.str e, JSVal.str (jsTrim s)⟩])
    ∧ (∀ (s e : String) (st so : JSVal),
      verifyExpectation ⟨st, so, JSVal.str s⟩ (some [("stderr", JSVal.str e)])
        = [⟨"stderr", jsTrim s == e, JSVal.str e, JSVal.str (jsTrim s)⟩])
    ∧ verifyExpectation ⟨JSVal.num 0, JSVal.str "foo\n", JSVal.str ""⟩ (some [("stdout", JSVal.str "foo")])
        = [⟨"stdout", true, JSVal.str "foo", JSVal.str "foo"⟩]
    ∧ verifyExpectation ⟨JSVal.num 0, JSVal.str "foo", JSVal.str ""⟩ (some [("stdout", JSVal.str "foo\n")])
        = [⟨"stdout", false, JSVal.str "foo\n", JSVal.str "foo"⟩] := by
  refine ⟨?_, ?_, ?_, by decide, by decide⟩
  · intro n e so se
    simp [verifyExpectation, getField, jsEq]
  · intro s e st se
    simp [verifyExpectation, getField, jsEq]
  · intro s e st so
    simp [verifyExpectation, getField, jsEq]

/-- C3: interpolation of a template with an undeclared placeholder fails
immediately (also in the presence of other valid placeholders) and is fatal
to the run, but the thrown message interpolates the placeholder name where
the context label (the scenario file) was intended, because the replace
callback's `name` parameter shadows the label parameter. -/
theorem interpolation_error_message_c3 :
    generateCommand "cat {file1}" [] "test/demo.test.yml"
      = Except.error (RunError.thrown "Cannot find asset \"file1\" from \"cat {file1}\" in file file1")
    ∧ "Cannot find asset \"file1\" from \"cat {file1}\" in file file1"
        ≠ "Cannot find asset \"file1\" from \"cat {file1}\" in file test/demo.test.yml"
    ∧ generateCommand "echo {ok} {file1}" [⟨"string", "ok", some "v", none⟩] "lbl"
        = Except.error (RunError.thrown "Cannot find asset \"file1\" from \"echo {ok} {file1}\" in file file1")
    ∧ (comestRun exec0 tmp0 "" [some rawBad3] fs0).1 = 1 := by
  refine ⟨by decide, by decide, by decide, by decide⟩

/-- C4 (amended): once the step loop of a scenario completes without a
thrown error — including when expectations fail — `removeAssets` deletes
every materialized temporary file; but when an interpolation error aborts
the scenario, the throw propagates past `removeAssets` (there is no
try/finally), so the files are not deleted by the runner on that path. -/
theorem asset_cleanup_after_success_c4 (exec : String → ProcResult) (tmp : Nat → String → String)
    (cwd : String) (config : ConfigSteps) (n : Nat) (fs : FS) (rec : ScenarioRecord)
    (h : (runConfig exec tmp cwd config n fs).1 = Except.ok rec) :
    ∀ a ∈ (createAssets tmp config.assets n fs).1, a.type = "file" →
      ∀ p, a.file = some p → (runConfig exec tmp cwd config n fs).2.2 p = none := by
  intro a hmem ht p hp
  simp only [runConfig] at h ⊢
  cases hrs : runSteps exec (createAssets tmp config.assets n fs).1
      (replaceFirst config.path cwd) config.steps with
  | error e =>
    rw [hrs] at h
    exact absurd h (by simp)
  | ok suiteResult =>
    show removeAssets (createAssets tmp config.assets n fs).2.2
      (createAssets tmp config.assets n fs).1 p = none
    exact removeAssets_mem _ _ a p hmem ht hp

/-- C4 counterexample: a scenario whose file asset is materialized and whose
step then hits an interpolation error leaves the temporary file on disk. -/
theorem asset_leak_on_interpolation_error_c4 :
    (runConfig exec0 tmp0 "" cfgAssetLeak 0 fs0).1
      = Except.error (RunError.thrown "Cannot find asset \"missing\" from \"cat {missing}\" in file missing")
    ∧ (runConfig exec0 tmp0 "" cfgAssetLeak 0 fs0).2.2 "/tmp/t0.txt" = some "data" := by
  refine ⟨by decide, by decide⟩

theorem asset_cleanup_after_success_c4_witness :
    (runConfig exec0 tmp0 "" cfgCleanupOk 0 fs0).2.2 "/tmp/t0" = none :=
  asset_cleanup_after_success_c4 exec0 tmp0 "" cfgCleanupOk 0 fs0
    ⟨"ok.test.yml", some "ok", [⟨[⟨"status", false, JSVal.num 1, JSVal.num 0⟩], "cat {f}"⟩]⟩
    (by decide) ⟨"file", "f", some "c", some "/tmp/t0"⟩ (by decide) rfl "/tmp/t0" rfl

/-- C5 (amended): `normalizeConfig` aborts the run with a descriptive error
exactly when the document is missing or lacks `name`; a named document with
neither a command nor steps is not rejected — it is normalized into a single
step whose command is undefined — and a named document with an empty steps
list is accepted with zero steps. -/
theorem normalize_requires_name_only_c5 :
    (normalizeConfig none).isOk = false
    ∧ (∀ c : RawConfig, c.name = none → (normalizeConfig (some c)).isOk = false)
    ∧ (∀ c : RawConfig, c.name.isSome = true →
        normalizeConfig (some c) =
          Except.ok ⟨c.name, c.path, c.assets.getD [], c.steps.getD [⟨c.command, c.expect⟩]⟩) := by
  refine ⟨rfl, ?_, ?_⟩
  · intro c h
    simp [normalizeConfig, h, Except.isOk, Except.toBool]
  · intro c h
    simp [normalizeConfig, h]

theorem normalize_requires_name_only_c5_witness :
    normalizeConfig (some ⟨some "n", "p", some "cmd", none, none, none⟩)
      = Except.ok ⟨some "n", "p", [], [⟨some "cmd", none⟩]⟩ :=
  normalize_requires_name_only_c5.2.2 ⟨some "n", "p", some "cmd", none, none, none⟩ rfl

/-- C5 counterexample: a document with a name but no command and no steps is
accepted by normalization (with a single undefined-command step), and a
document with an explicitly empty steps list is accepted with zero steps,
instead of aborting the run. -/
theorem normalize_no_steps_accepted_c5 :
    normalizeConfig (some ⟨some "x", "p", none, none, none, none⟩)
      = Except.ok ⟨some "x", "p", [], [⟨none, none⟩]⟩
    ∧ normalizeConfig (some ⟨some "y", "q", none, none, none, some []⟩)
      = Except.ok ⟨some "y", "q", [], []⟩ := by
  refine ⟨by decide, by decide⟩

/-- C6: a placeholder is resolved against the first asset in declared order
whose name equals the identifier; a file-kind match is replaced by the path
of its materialized temporary file, unquoted, and a string-kind match is
replaced by its content wrapped in double quotes. -/
theorem placeholder_resolution_c6
    (pre id post : List Char) (assets : List Asset) (ctx : String) (i : Nat) (a : Asset)
    (hpre : ∀ c ∈ pre, c ≠ '{')
    (hid : ∀ c ∈ id, c ≠ '}' ∧ isLineTerminator c = false)
    (hget : assets[i]? = some a)
    (hname : a.name = String.mk id)
    (hfirst : ∀ j, j < i → ∀ b, assets[j]? = some b → b.name ≠ String.mk id) :
    (∀ p, a.type = "file" → a.file = some p →
      generateCommand (String.mk (pre ++ '{' :: id ++ '}' :: post)) assets ctx
        = (interpolateChars (String.mk (pre ++ '{' :: id ++ '}' :: post)) assets post).map
            (fun t => String.mk (pre ++ p.data ++ t)))
    ∧ (a.type = "string" →
      generateCommand (String.mk (pre ++ '{' :: id ++ '}' :: post)) assets ctx
        = (interpolateChars (String.mk (pre ++ '{' :: id ++ '}' :: post)) assets post).map
            (fun t => String.mk (pre ++ '"' :: (contentStr a).data ++ '"' :: t))) := by
  have hfind := find_first_eq assets (String.mk id) i a hget hname hfirst
  have hfc := findClose_append id post hid
  have e2 : (String.mk (pre ++ '{' :: id ++ '}' :: post)).data
      = pre ++ '{' :: (id ++ '}' :: post) := by simp
  constructor
  · intro p ht hp
    unfold generateCommand
    rw [e2, interp_pre _ assets pre ('{' :: (id ++ '}' :: post)) hpre,
      interp_found_file _ assets (id ++ '}' :: post) id post a p hfc hfind ht hp]
    cases hr : interpolateChars (String.mk (pre ++ '{' :: id ++ '}' :: post)) assets post <;>
      simp [Except.map, hr, List.append_assoc]
  · intro ht
    unfold generateCommand
    rw [e2, interp_pre _ assets pre ('{' :: (id ++ '}' :: post)) hpre,
      interp_found_string _ assets (id ++ '}' :: post) id post a hfc hfind ht]
    cases hr : interpolateChars (String.mk (pre ++ '{' :: id ++ '}' :: post)) assets post <;>
      simp [Except.map, hr, List.append_assoc]

theorem placeholder_resolution_c6_witness :
    generateCommand "echo {f}" dupAssets6 "ctx" = Except.ok "echo \"first\"" := by
  have h := (placeholder_resolution_c6 "echo ".data "f".data [] dupAssets6 "ctx" 0
      ⟨"string", "f", some "first", none⟩ (by decide) (by decide) (by decide) (by decide)
      (by intro j hj b hb; omega)).2 rfl
  have e1 : String.mk ("echo ".data ++ '{' :: "f".data ++ '}' :: []) = "echo {f}" := by decide
  rw [e1] at h
  rw [h]
  decide

/-- C7 (amended): the StepResult built for an executed step records the raw
step template as its `command` field, not the interpolated command string
(which is computed and executed but not stored). -/
theorem step_records_raw_template_c7 (exec : String → ProcResult) (assets : List Asset)
    (ctx : String) (step : Step) (sr : StepResult)
    (h : runStep exec assets ctx step = Except.ok sr) : step.command = some sr.command := by
  unfold runStep at h
  cases hc : step.command with
  | none =>
    simp only [hc] at h
    exact absurd h (by simp)
  | some cmd =>
    simp only [hc] at h
    cases hg : generateCommand cmd assets ctx with
    | error e =>
      simp only [hg] at h
      exact absurd h (by simp)
    | ok command =>
      simp only [hg] at h
      simp only [Except.ok.injEq] at h
      subst h
      rfl

theorem step_records_raw_template_c7_witness :
    (⟨some "echo", none⟩ : Step).command = some (⟨[], "echo"⟩ : StepResult).command :=
  step_records_raw_template_c7 exec0 [] "c" ⟨some "echo", none⟩ ⟨[], "echo"⟩ (by decide)

/-- C7 counterexample: a scenario whose step template is `echo {s}` records
`echo {s}` in its StepResult while the interpolated command actually
executed is `echo "v"`, a different string. -/
theorem step_template_counterexample_c7 :
    (runConfig exec0 tmp0 "" cfgTemplate7 0 fs0).1
      = Except.ok ⟨"p", some "n", [⟨[], "echo {s}"⟩]⟩
    ∧ generateCommand "echo {s}" cfgTemplate7.assets "p" = Except.ok "echo \"v\""
    ∧ ("echo {s}" : String) ≠ "echo \"v\"" := by
  refine ⟨by decide, by decide, by decide⟩

/-- C8 (amended): when a declared expectation field is missing from the
captured outcome, the verifier never faults and reports the received value
as the empty string, but the pass comparison uses the raw missing value, so
any defined expected value — including the empty string or zero — fails
against a missing field. -/
theorem missing_field_comparison_c8 (k : String) (v : JSVal) (h : v ≠ JSVal.undef) :
    verifyExpectation ⟨JSVal.undef, JSVal.undef, JSVal.undef⟩ (some [(k, v)])
      = [⟨k, false, v, JSVal.str ""⟩] := by
  unfold verifyExpectation
  simp only [List.map_cons, List.map_nil, getField_all_undef]
  cases v with
  | undef => exact absurd rfl h
  | null => simp [jsEq]
  | str s => simp [jsEq]
  | num n => simp [jsEq]

theorem missing_field_comparison_c8_witness :
    verifyExpectation ⟨JSVal.undef, JSVal.undef, JSVal.undef⟩ (some [("stdout", JSVal.str "x")])
      = [⟨"stdout", false, JSVal.str "x", JSVal.str ""⟩] :=
  missing_field_comparison_c8 "stdout" (JSVal.str "x") (by decide)

/-- C8 counterexample: expecting the empty string against a missing stdout
capture does not pass — the FieldResult has `pass = false` even though the
reported received value is the empty string. -/
theorem missing_field_empty_expectation_fails_c8 :
    verifyExpectation ⟨JSVal.undef, JSVal.undef, JSVal.undef⟩ (some [("stdout", JSVal.str "")])
      = [⟨"stdout", false, JSVal.str "", JSVal.str ""⟩] := by decide

/-- C9: steps run in declared order and are not short-circuited: whenever
every step of a scenario interpolates and runs, the step loop yields exactly
one StepResult per declared step, in declared order, each computed from its
own step alone, regardless of the pass/fail of any field of any step. -/
theorem steps_sequential_c9 (exec : String → ProcResult) (assets : List Asset) (ctx : String)
    (steps : List Step)
    (h : ∀ s ∈ steps, (runStep exec assets ctx s).isOk = true) :
    ∃ l, runSteps exec assets ctx steps = Except.ok l ∧ l.length = steps.length ∧
      ∀ (i : Nat) (hi : i < steps.length) (hl : i < l.length),
        runStep exec assets ctx (steps.get ⟨i, hi⟩) = Except.ok (l.get ⟨i, hl⟩) := by
  induction steps with
  | nil => exact ⟨[], rfl, rfl, fun i hi => absurd hi (by simp)⟩
  | cons s ss ih =>
    have hs := h s (by simp)
    cases hr : runStep exec assets ctx s with
    | error e =>
      rw [hr] at hs
      exact absurd hs (by simp [Except.isOk, Except.toBool])
    | ok r =>
      obtain ⟨l, hl, hlen, hidx⟩ := ih (fun x hx => h x (by simp [hx]))
      refine ⟨r :: l, ?_, by simp [hlen], ?_⟩
      · simp only [runSteps, hr, hl]
      · intro i hi hl2
        cases i with
        | zero => simpa using hr
        | succ i =>
          simpa using hidx i (Nat.lt_of_succ_lt_succ hi) (Nat.lt_of_succ_lt_succ hl2)

theorem steps_sequential_c9_witness :
    (∀ s ∈ steps9, (runStep exec0 [] "c" s).isOk = true) ∧
      ∃ l, runSteps exec0 [] "c" steps9 = Except.ok l ∧ l.length = steps9.length ∧
        ∀ (i : Nat) (hi : i < steps9.length) (hl : i < l.length),
          runStep exec0 [] "c" (steps9.get ⟨i, hi⟩) = Except.ok (l.get ⟨i, hl⟩) :=
  ⟨by decide, steps_sequential_c9 exec0 [] "c" steps9 (by decide)⟩

/-- C10: a placeholder whose identifier matches a declared asset whose type
is neither `file` nor `string` is left unchanged in the command, braces
included, and raises no error. -/
theorem unknown_type_passthrough_c10
    (pre id post : List Char) (assets : List Asset) (ctx : String) (a : Asset)
    (hpre : ∀ c ∈ pre, c ≠ '{')
    (hid : ∀ c ∈ id, c ≠ '}' ∧ isLineTerminator c = false)
    (hfind : assets.find? (fun x => x.name == String.mk id) = some a)
    (ht1 : a.type ≠ "file") (ht2 : a.type ≠ "string") :
    generateCommand (String.mk (pre ++ '{' :: id ++ '}' :: post)) assets ctx
      = (interpolateChars (String.mk (pre ++ '{' :: id ++ '}' :: post)) assets post).map
          (fun t => String.mk (pre ++ '{' :: id ++ '}' :: t)) := by
  have hfc := findClose_append id post hid
  have e2 : (String.mk (pre ++ '{' :: id ++ '}' :: post)).data
      = pre ++ '{' :: (id ++ '}' :: post) := by simp
  unfold generateCommand
  rw [e2, interp_pre _ assets pre ('{' :: (id ++ '}' :: post)) hpre,
    interp_found_other _ assets (id ++ '}' :: post) id post a hfc hfind ht1 ht2]
  cases hr : interpolateChars (String.mk (pre ++ '{' :: id ++ '}' :: post)) assets post <;>
    simp [Except.map, hr, List.append_assoc]

theorem unknown_type_passthrough_c10_witness :
    generateCommand "run {x}" [⟨"dile", "x", some "c", none⟩] "ctx" = Except.ok "run {x}" := by
  have h := unknown_type_passthrough_c10 "run ".data "x".data [] [⟨"dile", "x", some "c", none⟩]
      "ctx" ⟨"dile", "x", some "c", none⟩ (by decide) (by decide) (by decide) (by decide) (by decide)
  have e1 : String.mk ("run ".data ++ '{' :: "x".data ++ '}' :: []) = "run {x}" := by decide
  rw [e1] at h
  rw [h]
  decide
